import Mathlib

/-!
Verification of a command-line ping latency analyzer written in Go.

The program repeatedly invokes the system `ping` utility against a target,
parses the textual output for a round-trip latency, collects the outcomes,
computes aggregate statistics, renders a terminal plot and persists a text
log.  Here the relevant parts of the program are shallowly embedded:
float64 values are modelled as rational numbers, the external `ping`
command's output is an explicit input, the timer/interrupt race is
modelled as an explicit list of events, and console/file I/O is modelled
as an explicit effect trace.
-/

namespace PingAnalyzer

/-- A wall-clock time of day, as used for the `15:04:05` formatting of a
`time.Time` value in the log lines. -/
structure Time where
  hour : ℕ
  minute : ℕ
  second : ℕ
deriving DecidableEq, Repr

/-- Embeds the Go struct `PingResult` (latency is the float64 field,
modelled as a rational; the Go zero value of the field is 0). -/
structure PingResult where
  sequence : ℤ
  latency : ℚ
  success : Bool
  timestamp : Time
deriving DecidableEq, Repr

/-- Floor of a rational number as an integer (used to model the rounding
performed by Go's fixed-point formatting verbs). -/
def qfloor (q : ℚ) : ℤ :=
  q.num.fdiv (q.den : ℤ)

/-- Left-pad a string with zeros up to width `d`. -/
def padZeros (d : ℕ) (s : String) : String :=
  (List.replicate (d - s.length) '0').asString ++ s

/-- Fixed-point decimal rendering with `d` digits after the point,
modelling Go's `%.Nf` formatting verbs (ties rounded upward; the claims
never exercise a tie). -/
def fmtFixed (d : ℕ) (q : ℚ) : String :=
  let scaled : ℤ := qfloor (q * ((10 : ℚ) ^ d) + 1/2)
  let sign := if scaled < 0 then "-" else ""
  let m := scaled.natAbs
  let ip := m / 10 ^ d
  let fp := m % 10 ^ d
  if d = 0 then sign ++ toString ip
  else sign ++ toString ip ++ "." ++ padZeros d (toString fp)

/-- Models `t.Format("15:04:05")` for a time of day. -/
def fmtHMS (t : Time) : String :=
  padZeros 2 (toString t.hour) ++ ":" ++ padZeros 2 (toString t.minute) ++ ":" ++
    padZeros 2 (toString t.second)

/-- The latencies slice accumulated by `main` alongside `results`: the
latency of each successful outcome, in order. -/
def successLats (results : List PingResult) : List ℚ :=
  (results.filter (fun r => r.success)).map (fun r => r.latency)

/-- One iteration of the loop body of `calculateStats`: update running
min and max and add to the running sum. -/
def statStep (acc : ℚ × ℚ × ℚ) (x : ℚ) : ℚ × ℚ × ℚ :=
  (if x < acc.1 then x else acc.1, if x > acc.2.1 then x else acc.2.1, acc.2.2 + x)

/-- Embeds the Go function `calculateStats`: for an empty slice return
`(0, 0, 0)`; otherwise initialize min and max to the first element, sum
to 0, iterate over the whole slice, and divide the sum by the length. -/
def calculateStats : List ℚ → ℚ × ℚ × ℚ
  | [] => (0, 0, 0)
  | l :: ls =>
    let t := (l :: ls).foldl statStep (l, l, 0)
    (t.1, t.2.1, t.2.2 / (((l :: ls).length : ℚ)))

/-- Models Go's `strings.Split` for a non-empty separator (split around
every non-overlapping leftmost occurrence; always at least one part). -/
def goSplit (s sep : String) : List String :=
  s.splitOn sep

/-- Models Go's `strings.Contains` for a non-empty substring: the
substring occurs iff splitting on it yields more than one part. -/
def goContains (s sub : String) : Bool :=
  decide (1 < (goSplit s sub).length)

/-- Models Go's `strings.Fields`: maximal runs of non-whitespace
characters, with no empty fields. -/
def goFields (s : String) : List String :=
  (s.split Char.isWhitespace).filter (fun f => f ≠ "")

/-- All characters are decimal digits, read as a natural number. -/
def digitsVal (cs : List Char) : ℕ :=
  cs.foldl (fun n c => 10 * n + (c.toNat - 48)) 0

/-- Models the fragment of Go's `strconv.ParseFloat` exercised by ping
output: an optional sign followed by a plain decimal number (`10`,
`10.2`, `1.`, `.5`).  Exponent and special forms never occur in the
parsed `ping` fields and are omitted. -/
def parseFloat? (s : String) : Option ℚ :=
  let (sign, body) :=
    match s.toList with
    | '-' :: rest => ((-1 : ℚ), rest)
    | '+' :: rest => ((1 : ℚ), rest)
    | cs => ((1 : ℚ), cs)
  let ip := body.takeWhile (fun c => c ≠ '.')
  match body.dropWhile (fun c => c ≠ '.') with
  | [] =>
    if ip ≠ [] ∧ ip.all Char.isDigit then some (sign * (digitsVal ip : ℚ)) else none
  | _ :: fp =>
    if (ip ≠ [] ∨ fp ≠ []) ∧ ip.all Char.isDigit ∧ fp.all Char.isDigit ∧
        fp.all (fun c => c ≠ '.') then
      some (sign * ((digitsVal ip : ℚ) + (digitsVal fp : ℚ) / ((10 : ℚ) ^ fp.length)))
    else none

/-- The per-line step of the scanner loop in the Go function
`parseLatency`.  `Except.ok none` means the line yields nothing and the
scan continues; `Except.ok (some v)` means the function returns `v`;
`Except.error ()` marks the one path where the Go code would panic (a
`[0]` index into the empty field list when the text after `time=` is
empty or all whitespace, Unix branch only). -/
def parseLine (isWindows : Bool) (line : String) : Except Unit (Option ℚ) :=
  if isWindows then
    if goContains line "time" && goContains line "ms" then
      if goContains line "time<" then
        match goSplit line "time<" with
        | _ :: p1 :: _ =>
          match goSplit p1 "ms" with
          | m :: _ =>
            match parseFloat? m with
            | some ms => Except.ok (some (ms - 1/2))
            | none => Except.ok none
          | [] => Except.ok none
        | _ => Except.ok none
      else if goContains line "time=" then
        match goSplit line "time=" with
        | _ :: p1 :: _ =>
          match goSplit p1 "ms" with
          | m :: _ =>
            match parseFloat? m with
            | some ms => Except.ok (some ms)
            | none => Except.ok none
          | [] => Except.ok none
        | _ => Except.ok none
      else Except.ok none
    else Except.ok none
  else
    if goContains line "time=" then
      match goSplit line "time=" with
      | _ :: p1 :: _ =>
        match goFields p1 with
        | f :: _ =>
          match parseFloat? f with
          | some ms => Except.ok (some ms)
          | none => Except.ok none
        | [] => Except.error ()
      | _ => Except.ok none
    else Except.ok none

/-- Embeds the Go function `parseLatency`: scan the output lines in
order, return the first recognized latency, or `-1` when no line is
recognized.  `none` marks the panic path of `parseLine`. -/
def parseLatency (isWindows : Bool) : List String → Option ℚ
  | [] => some (-1)
  | line :: rest =>
    match parseLine isWindows line with
    | Except.error _ => none
    | Except.ok (some v) => some v
    | Except.ok none => parseLatency isWindows rest

/-- Embeds the Go function `pingOnce`.  The external `ping` command is
an input: `cmdOutput = none` models a failed command (non-zero exit),
`some lines` its standard output split into lines.  The result starts
as a failure with zero latency and is upgraded iff the parsed latency
is non-negative. -/
def pingOnce (isWindows : Bool) (sequence : ℤ) (ts : Time)
    (cmdOutput : Option (List String)) : Option PingResult :=
  match cmdOutput with
  | none => some { sequence := sequence, latency := 0, success := false, timestamp := ts }
  | some lines =>
    match parseLatency isWindows lines with
    | none => none
    | some latency =>
      if 0 ≤ latency then
        some { sequence := sequence, latency := latency, success := true, timestamp := ts }
      else
        some { sequence := sequence, latency := 0, success := false, timestamp := ts }

/-- The "less than one unit" report of the Windows ping dialect: the
line carries `time` and `ms`, a `time<` occurrence, and the text
between `time<` and the next `ms` reads as exactly one unit (the
literal marker is `time<1ms`). -/
def ltOneUnitMarker (line : String) : Bool :=
  goContains line "time" && goContains line "ms" &&
    (match goSplit line "time<" with
     | _ :: p1 :: _ =>
       match goSplit p1 "ms" with
       | m :: _ => decide (parseFloat? m = some 1)
       | [] => false
     | _ => false)

/-- The numbers computed by the Go function `displayStats`. -/
structure StatsReport where
  total : ℕ
  successful : ℕ
  packetLoss : ℚ
  latencyStats : Option (ℚ × ℚ × ℚ)
deriving DecidableEq, Repr

/-- Embeds the computation performed by the Go function `displayStats`:
it returns early (printing nothing, computing no quotient) when there
are no results; otherwise it computes the packet-loss percentage and,
when there is at least one successful ping, min/max/avg latency. -/
def displayStats (results : List PingResult) (latencies : List ℚ) : Option StatsReport :=
  if results.length = 0 then none
  else some
    { total := results.length
      successful := latencies.length
      packetLoss := (((results.length : ℚ) - (latencies.length : ℚ)) / (results.length : ℚ)) * 100
      latencyStats :=
        if 0 < latencies.length then some (calculateStats latencies) else none }

/-- The console lines printed by `displayStats`, rendered from the
computed report. -/
def statsLines : Option StatsReport → List String
  | none => []
  | some s =>
    ["\n--- Ping Statistics ---",
     "Packets sent: " ++ toString s.total,
     "Packets received: " ++ toString s.successful,
     "Packet loss: " ++ fmtFixed 1 s.packetLoss ++ "%"] ++
    (match s.latencyStats with
     | some (mn, mx, avg) =>
       ["Latency - Min: " ++ fmtFixed 2 mn ++ " ms, Max: " ++ fmtFixed 2 mx ++
        " ms, Avg: " ++ fmtFixed 2 avg ++ " ms"]
     | none => [])

/-- One observable side effect of the program: a console line or a file
write. -/
inductive Effect where
  | console (line : String)
  | fileWrite (path : String) (content : String)
deriving DecidableEq, Repr

/-- Whether an effect is console output. -/
def Effect.isConsole : Effect → Bool
  | Effect.console _ => true
  | Effect.fileWrite _ _ => false

/-- One arrival in the `select` of the ping goroutine: a ticker tick or
the interrupt signal. -/
inductive Event where
  | tick
  | sig
deriving DecidableEq, Repr

/-- What the ping goroutine has produced when it returns: the `results`
slice, the `latencies` slice, and its I/O trace. -/
structure LoopOut where
  results : List PingResult
  latencies : List ℚ
  effects : List Effect
deriving DecidableEq, Repr

/-- The console line `Ping %d: %.2f ms` printed for a successful probe,
with the high-latency alert appended when the latency exceeds the
threshold. -/
def pingSuccessLine (r : PingResult) (threshold : ℚ) : String :=
  "Ping " ++ toString r.sequence ++ ": " ++ fmtFixed 2 r.latency ++ " ms" ++
    (if r.latency > threshold then
      " [HIGH LATENCY ALERT: " ++ fmtFixed 2 r.latency ++ " ms > " ++
        fmtFixed 0 threshold ++ " ms]"
    else "")

/-- The console line printed for a failed probe. -/
def pingFailLine (r : PingResult) : String :=
  "Ping " ++ toString r.sequence ++ ": Request timeout or host unreachable"

/-- Embeds the ping goroutine of `main`.  The `select` between the
signal channel and the ticker channel is modelled by an explicit list
of arrival events; `probe k` is the `PingResult` that `pingOnce` yields
for sequence number `k`.  On a signal the goroutine prints a notice and
returns; on a tick it records the probe outcome, prints a progress
line, increments `i` and returns once `count > 0 && i >= count`.  An
exhausted event list models a loop still blocked waiting. -/
def pingLoop (probe : ℤ → PingResult) (threshold : ℚ) (count : ℤ) :
    List Event → ℤ → LoopOut
  | [], _ => ⟨[], [], []⟩
  | Event.sig :: _, _ =>
    ⟨[], [], [Effect.console "\nReceived interrupt signal. Stopping..."]⟩
  | Event.tick :: rest, i =>
    let r := probe (i + 1)
    let tail : LoopOut :=
      if 0 < count ∧ count ≤ i + 1 then ⟨[], [], []⟩
      else pingLoop probe threshold count rest (i + 1)
    if r.success then
      ⟨r :: tail.results, r.latency :: tail.latencies,
        Effect.console (pingSuccessLine r threshold) :: tail.effects⟩
    else
      ⟨r :: tail.results, tail.latencies,
        Effect.console (pingFailLine r) :: tail.effects⟩

/-- The startup console line of `main`: target and cadence, then either
the bounded tick budget or the infinite-mode notice, chosen by
`count > 0`. -/
def startupMsg (target : String) (interval count : ℤ) : String :=
  "Pinging " ++ target ++ " every " ++ toString interval ++ " seconds" ++
    (if 0 < count then " (" ++ toString count ++ " times)..."
     else " (infinite - press Ctrl+C to stop)...")

/-- One line of the persisted log body, as written by `logResults`:
timestamp, sequence number, and either the latency or `FAILED`. -/
def logLine (r : PingResult) : String :=
  if r.success then
    "[" ++ fmtHMS r.timestamp ++ "] Ping " ++ toString r.sequence ++ ": " ++
      fmtFixed 2 r.latency ++ " ms"
  else
    "[" ++ fmtHMS r.timestamp ++ "] Ping " ++ toString r.sequence ++ ": FAILED"

/-- The successive `WriteString` payloads of the Go function
`logResults`: three header writes, then one write per result produced
by the loop over the results slice. -/
def logWrites (target gen : String) (results : List PingResult) : List String :=
  let w : List String := []
  let w := w ++ ["Ping Log - Target: " ++ target ++ "\n"]
  let w := w ++ ["Generated: " ++ gen ++ "\n"]
  let w := w ++ ["=====================================\n"]
  results.foldl (fun acc r => acc ++ [logLine r ++ "\n"]) w

/-- The file content after `logResults`: `os.Create` truncates, so on
success the new content is exactly the concatenated writes, whatever
the file held before; on a create failure the prior content is left
as is. -/
def logResults (createOk : Bool) (prior : Option String) (target gen : String)
    (results : List PingResult) : Option String :=
  if createOk then some (String.join (logWrites target gen results)) else prior

/-- The console lines of the graph section of `main`: header plus the
rendered plot when any latency was collected, an explicit no-data
message otherwise.  `plot` abstracts `asciigraph.Plot`, applied to the
latencies, height 10, width 60 and the caption built from the target. -/
def graphSection (plot : List ℚ → ℕ → ℕ → String → String) (target : String)
    (latencies : List ℚ) : List String :=
  if 0 < latencies.length then
    ["\nLatency Graph:",
     plot latencies 10 60 ("Latency over time (ms) - Target: " ++ target)]
  else
    ["No successful pings to display graph."]

/-- The observable end state of a run. -/
structure RunEnd where
  effects : List Effect
  file : Option String
  exitCode : ℕ
deriving Repr

/-- Embeds the tail of `main` after the goroutine completes: print the
statistics, print the graph section, then attempt to persist the log;
on failure print the error with the message of the create error, on
success record the write and print the destination.  `main` then
returns, so the process exit code is 0 on both paths. -/
def finishRun (plot : List ℚ → ℕ → ℕ → String → String)
    (target logFile gen errMsg : String) (results : List PingResult)
    (latencies : List ℚ) (createOk : Bool) (prior : Option String) : RunEnd :=
  let statsFx := (statsLines (displayStats results latencies)).map Effect.console
  let graphFx := (graphSection plot target latencies).map Effect.console
  if createOk then
    { effects := statsFx ++ graphFx ++
        [Effect.fileWrite logFile (String.join (logWrites target gen results)),
         Effect.console ("Results logged to " ++ logFile)]
      file := logResults true prior target gen results
      exitCode := 0 }
  else
    { effects := statsFx ++ graphFx ++
        [Effect.console ("Error logging results: " ++ errMsg)]
      file := logResults false prior target gen results
      exitCode := 0 }

/-- The three outcomes of the worked summary example: a success with
latency 10.0, a failure, a success with latency 30.0. -/
def demoResults : List PingResult :=
  [⟨1, 10, true, ⟨0, 0, 0⟩⟩, ⟨2, 0, false, ⟨0, 0, 1⟩⟩, ⟨3, 30, true, ⟨0, 0, 2⟩⟩]

/-- A reordering of `demoResults` with the same outcomes. -/
def demoShuffled : List PingResult :=
  [⟨3, 30, true, ⟨0, 0, 2⟩⟩, ⟨1, 10, true, ⟨0, 0, 0⟩⟩, ⟨2, 0, false, ⟨0, 0, 1⟩⟩]

/-- A probe that always succeeds with latency 7 and echoes its sequence
number, standing in for `pingOnce` in concrete loop runs. -/
def demoProbe : ℤ → PingResult := fun k => ⟨k, 7, true, ⟨0, 0, 0⟩⟩

/- ------------------------------------------------------------------
Theorems.
------------------------------------------------------------------ -/

theorem if_lt_eq_min (m x : ℚ) : (if x < m then x else m) = min m x := by
  rcases le_or_lt m x with h | h
  · rw [if_neg (not_lt.mpr h), min_eq_left h]
  · rw [if_pos h, min_eq_right h.le]

theorem if_gt_eq_max (M x : ℚ) : (if x > M then x else M) = max M x := by
  rcases le_or_lt x M with h | h
  · rw [if_neg (not_lt.mpr h), max_eq_left h]
  · rw [if_pos h, max_eq_right h.le]

theorem statStep_eq (m M s x : ℚ) :
    statStep (m, M, s) x = (min m x, max M x, s + x) := by
  show (if x < m then x else m, if x > M then x else M, s + x) = _
  rw [if_lt_eq_min, if_gt_eq_max]

theorem foldl_statStep_eq (l : List ℚ) : ∀ m0 M0 s0 : ℚ,
    l.foldl statStep (m0, M0, s0) =
      (l.foldl min m0, l.foldl max M0, l.foldl (· + ·) s0) := by
  induction l with
  | nil => intro m0 M0 s0; rfl
  | cons x xs ih =>
    intro m0 M0 s0
    rw [List.foldl_cons, statStep_eq, ih, List.foldl_cons, List.foldl_cons,
      List.foldl_cons]

theorem foldl_min_le_init (l : List ℚ) (a : ℚ) : l.foldl min a ≤ a := by
  induction l generalizing a with
  | nil => exact le_refl a
  | cons y ys ih =>
    rw [List.foldl_cons]
    exact le_trans (ih _) (min_le_left a y)

theorem foldl_min_le_mem {l : List ℚ} {x : ℚ} (hx : x ∈ l) (a : ℚ) :
    l.foldl min a ≤ x := by
  induction l generalizing a with
  | nil => cases hx
  | cons y ys ih =>
    rw [List.foldl_cons]
    rcases List.mem_cons.mp hx with rfl | h
    · exact le_trans (foldl_min_le_init ys (min a x)) (min_le_right a x)
    · exact ih h _

theorem foldl_min_choice (l : List ℚ) (a : ℚ) :
    l.foldl min a = a ∨ l.foldl min a ∈ l := by
  induction l generalizing a with
  | nil => exact Or.inl rfl
  | cons y ys ih =>
    rw [List.foldl_cons]
    rcases ih (min a y) with h | h
    · rcases min_choice a y with h2 | h2
      · exact Or.inl (by rw [h, h2])
      · exact Or.inr (by rw [h, h2]; exact List.mem_cons_self y ys)
    · exact Or.inr (List.mem_cons_of_mem y h)

theorem init_le_foldl_max (l : List ℚ) (a : ℚ) : a ≤ l.foldl max a := by
  induction l generalizing a with
  | nil => exact le_refl a
  | cons y ys ih =>
    rw [List.foldl_cons]
    exact le_trans (le_max_left a y) (ih _)

theorem mem_le_foldl_max {l : List ℚ} {x : ℚ} (hx : x ∈ l) (a : ℚ) :
    x ≤ l.foldl max a := by
  induction l generalizing a with
  | nil => cases hx
  | cons y ys ih =>
    rw [List.foldl_cons]
    rcases List.mem_cons.mp hx with rfl | h
    · exact le_trans (le_max_right a x) (init_le_foldl_max ys (max a x))
    · exact ih h _

theorem foldl_max_choice (l : List ℚ) (a : ℚ) :
    l.foldl max a = a ∨ l.foldl max a ∈ l := by
  induction l generalizing a with
  | nil => exact Or.inl rfl
  | cons y ys ih =>
    rw [List.foldl_cons]
    rcases ih (max a y) with h | h
    · rcases max_choice a y with h2 | h2
      · exact Or.inl (by rw [h, h2])
      · exact Or.inr (by rw [h, h2]; exact List.mem_cons_self y ys)
    · exact Or.inr (List.mem_cons_of_mem y h)

theorem foldl_add_eq (l : List ℚ) (a : ℚ) : l.foldl (· + ·) a = a + l.sum := by
  induction l generalizing a with
  | nil => simp
  | cons y ys ih =>
    rw [List.foldl_cons, ih, List.sum_cons]
    ring

theorem calculateStats_perm {l₁ l₂ : List ℚ} (h : l₁.Perm l₂) :
    calculateStats l₁ = calculateStats l₂ := by
  cases l₁ with
  | nil =>
    have h2 : l₂ = [] := h.symm.eq_nil
    rw [h2]
  | cons a as =>
    cases l₂ with
    | nil => exact absurd h.eq_nil (by simp)
    | cons b bs =>
      have hmem : ∀ x : ℚ, x ∈ a :: as ↔ x ∈ b :: bs := fun x => h.mem_iff
      have hmin : (a :: as).foldl min a = (b :: bs).foldl min b := by
        have hA : (a :: as).foldl min a ∈ a :: as := by
          rcases foldl_min_choice (a :: as) a with h' | h'
          · rw [h']; exact List.mem_cons_self a as
          · exact h'
        have hB : (b :: bs).foldl min b ∈ b :: bs := by
          rcases foldl_min_choice (b :: bs) b with h' | h'
          · rw [h']; exact List.mem_cons_self b bs
          · exact h'
        exact le_antisymm (foldl_min_le_mem ((hmem _).mpr hB) a)
          (foldl_min_le_mem ((hmem _).mp hA) b)
      have hmax : (a :: as).foldl max a = (b :: bs).foldl max b := by
        have hA : (a :: as).foldl max a ∈ a :: as := by
          rcases foldl_max_choice (a :: as) a with h' | h'
          · rw [h']; exact List.mem_cons_self a as
          · exact h'
        have hB : (b :: bs).foldl max b ∈ b :: bs := by
          rcases foldl_max_choice (b :: bs) b with h' | h'
          · rw [h']; exact List.mem_cons_self b bs
          · exact h'
        exact le_antisymm (mem_le_foldl_max ((hmem _).mp hA) b)
          (mem_le_foldl_max ((hmem _).mpr hB) a)
      simp only [calculateStats]
      rw [foldl_statStep_eq, foldl_statStep_eq]
      dsimp only
      rw [hmin, hmax, foldl_add_eq, foldl_add_eq, h.sum_eq, h.length_eq]

/-- C2: on the outcome sequence success 10.0 ms, failure, success
30.0 ms, the summarizer reports 3 packets sent, 2 received, a packet
loss of 100/3 percent (displayed by the `%.1f` verb as `33.3`), and
min 10.0, max 30.0, mean 20.0 latency. -/
theorem c2_sample_summary :
    successLats demoResults = [10, 30] ∧
    displayStats demoResults (successLats demoResults) =
      some { total := 3, successful := 2, packetLoss := 100 / 3,
             latencyStats := some (10, 30, 20) } ∧
    fmtFixed 1 (100 / 3 : ℚ) = "33.3" := by
  with_unfolding_all decide

/-- C3: on the empty outcome sequence `displayStats` returns before
computing any quotient and prints nothing, and `calculateStats` on an
empty slice yields the zero statistics; no division by zero is
performed and no error is raised. -/
theorem c3_empty_summary :
    displayStats [] [] = none ∧
    statsLines (displayStats [] []) = [] ∧
    calculateStats [] = (0, 0, 0) := by
  decide

/-- C5: the aggregate statistics are order independent: permuting the
outcome sequence (which preserves exactly which successes and failures
are present) leaves total, successful, loss ratio and min/max/mean
latency unchanged. -/
theorem c5_stats_order_independent (r₁ r₂ : List PingResult) (h : r₁.Perm r₂) :
    displayStats r₁ (successLats r₁) = displayStats r₂ (successLats r₂) := by
  have hl : (successLats r₁).Perm (successLats r₂) := by
    unfold successLats
    exact (h.filter (fun r => r.success)).map (fun r => r.latency)
  unfold displayStats
  rw [h.length_eq, hl.length_eq, calculateStats_perm hl]

/-- Witness for C5 at a concrete permutation of the worked example. -/
theorem c5_witness :
    displayStats demoResults (successLats demoResults) =
      displayStats demoShuffled (successLats demoShuffled) :=
  c5_stats_order_independent demoResults demoShuffled (by with_unfolding_all decide)

theorem pingLoop_tick_results (probe : ℤ → PingResult) (threshold : ℚ)
    (count : ℤ) (rest : List Event) (i : ℤ) :
    (pingLoop probe threshold count (Event.tick :: rest) i).results =
      probe (i + 1) ::
        (if 0 < count ∧ count ≤ i + 1 then ([] : List PingResult)
         else (pingLoop probe threshold count rest (i + 1)).results) := by
  simp only [pingLoop]
  by_cases hs : (probe (i + 1)).success <;>
    simp only [hs, if_true, if_false, Bool.false_eq_true] <;>
    rw [apply_ite LoopOut.results]

theorem pingLoop_seq_map (probe : ℤ → PingResult) (threshold : ℚ) (N : ℤ)
    (hseq : ∀ k : ℤ, (probe k).sequence = k) :
    ∀ events : List Event, (∀ e ∈ events, e = Event.tick) →
    ∀ i : ℤ, 0 ≤ i → i < N → N ≤ i + events.length →
    (pingLoop probe threshold N events i).results.map (fun r => r.sequence) =
      (List.range (N - i).toNat).map (fun k : ℕ => i + 1 + (k : ℤ)) := by
  intro events
  induction events with
  | nil =>
    intro _ i _ hiN hlen
    exfalso
    simp only [List.length_nil, Nat.cast_zero, add_zero] at hlen
    omega
  | cons e rest ih =>
    intro hticks i hi hiN hlen
    have he : e = Event.tick := hticks e (List.mem_cons_self e rest)
    subst he
    have hrest : ∀ e ∈ rest, e = Event.tick :=
      fun e he => hticks e (List.mem_cons_of_mem _ he)
    rw [pingLoop_tick_results]
    by_cases hc : 0 < N ∧ N ≤ i + 1
    · rw [if_pos hc]
      have h1 : (N - i).toNat = 1 := by omega
      rw [h1]
      simp [List.range_succ, hseq]
    · rw [if_neg hc]
      have h0N : 0 < N := by omega
      have hc2 : i + 1 < N := by
        rcases not_and_or.mp hc with h | h
        · exact absurd h0N h
        · omega
      have hlen2 : N ≤ i + 1 + (rest.length : ℤ) := by
        simp only [List.length_cons] at hlen
        push_cast at hlen
        omega
      rw [List.map_cons, ih hrest (i + 1) (by omega) hc2 hlen2, hseq]
      have h1 : (N - i).toNat = (N - (i + 1)).toNat + 1 := by omega
      rw [h1, List.range_succ_eq_map, List.map_cons, List.map_map]
      congr 1
      · simp
      · apply List.map_congr_left
        intro k _
        show i + 1 + 1 + (k : ℤ) = i + 1 + ((k + 1 : ℕ) : ℤ)
        push_cast
        ring

/-- C1: with a positive tick budget N and no cancellation signal among
the arrivals, the loop produces exactly N outcomes whose sequence
numbers are 1, 2, ..., N in strictly increasing order (sequence number
= tick index + 1). -/
theorem c1_run_produces_n_outcomes (probe : ℤ → PingResult) (threshold : ℚ)
    (N : ℤ) (events : List Event)
    (hseq : ∀ k : ℤ, (probe k).sequence = k)
    (hN : 0 < N)
    (hticks : ∀ e ∈ events, e = Event.tick)
    (hlen : N ≤ (events.length : ℤ)) :
    (pingLoop probe threshold N events 0).results.length = N.toNat ∧
    (pingLoop probe threshold N events 0).results.map (fun r => r.sequence) =
      (List.range N.toNat).map (fun k : ℕ => (k : ℤ) + 1) ∧
    List.Pairwise (· < ·)
      ((pingLoop probe threshold N events 0).results.map (fun r => r.sequence)) := by
  have hmap := pingLoop_seq_map probe threshold N hseq events hticks 0 le_rfl hN
    (by omega)
  have hmap2 : (pingLoop probe threshold N events 0).results.map
      (fun r => r.sequence) = (List.range N.toNat).map (fun k : ℕ => (k : ℤ) + 1) := by
    rw [hmap, sub_zero]
    apply List.map_congr_left
    intro k _
    ring
  refine ⟨?_, hmap2, ?_⟩
  · have hlth := congrArg List.length hmap2
    simpa using hlth
  · rw [hmap2]
    exact List.Pairwise.map _ (fun a b hab => by omega)
      (List.pairwise_lt_range N.toNat)

/-- Witness for C1: a run with budget 2 over two ticks yields the two
outcomes with sequence numbers 1 and 2. -/
theorem c1_witness :
    (pingLoop demoProbe 100 2 [Event.tick, Event.tick] 0).results.length = 2 ∧
    (pingLoop demoProbe 100 2 [Event.tick, Event.tick] 0).results.map
      (fun r => r.sequence) = [1, 2] := by
  obtain ⟨h1, h2, _⟩ := c1_run_produces_n_outcomes demoProbe 100 2
    [Event.tick, Event.tick] (fun k => rfl) (by decide) (by decide) (by decide)
  exact ⟨by rw [h1]; decide, by rw [h2]; decide⟩

/-- C10: a negative count flag behaves exactly like count = 0
(unbounded): the tick-budget termination test never fires, so the loop
is the same function of the arrival events, and the startup message
takes the infinite-mode branch. -/
theorem c10_negative_count_unbounded (probe : ℤ → PingResult) (threshold : ℚ)
    (count : ℤ) (hc : count ≤ 0) :
    (∀ (events : List Event) (i : ℤ),
      pingLoop probe threshold count events i =
        pingLoop probe threshold 0 events i) ∧
    ∀ (target : String) (interval : ℤ),
      startupMsg target interval count = startupMsg target interval 0 := by
  constructor
  · intro events
    induction events with
    | nil => intro i; rfl
    | cons e rest ih =>
      intro i
      cases e with
      | sig => rfl
      | tick =>
        simp only [pingLoop]
        have h1 : ¬(0 < count ∧ count ≤ i + 1) :=
          fun h => absurd h.1 (not_lt.mpr hc)
        have h2 : ¬((0 : ℤ) < 0 ∧ (0 : ℤ) ≤ i + 1) :=
          fun h => lt_irrefl 0 h.1
        rw [if_neg h1, if_neg h2, ih (i + 1)]
  · intro target interval
    unfold startupMsg
    rw [if_neg (not_lt.mpr hc), if_neg (lt_irrefl 0)]

/-- Witness for C10 at count = -5. -/
theorem c10_witness :
    pingLoop demoProbe 100 (-5) [Event.tick, Event.sig] 0 =
      pingLoop demoProbe 100 0 [Event.tick, Event.sig] 0 ∧
    startupMsg "google.com" 1 (-5) = startupMsg "google.com" 1 0 := by
  have h := c10_negative_count_unbounded demoProbe 100 (-5) (by decide)
  exact ⟨h.1 [Event.tick, Event.sig] 0, h.2 "google.com" 1⟩

theorem parseLatency_append (isWindows : Bool) (pre rest : List String)
    (h : ∀ l ∈ pre, parseLine isWindows l = Except.ok none) :
    parseLatency isWindows (pre ++ rest) = parseLatency isWindows rest := by
  induction pre with
  | nil => rfl
  | cons l ls ih =>
    have hl : parseLine isWindows l = Except.ok none :=
      h l (List.mem_cons_self l ls)
    rw [List.cons_append]
    show (match parseLine isWindows l with
      | Except.error _ => none
      | Except.ok (some v) => some v
      | Except.ok none => parseLatency isWindows (ls ++ rest)) = _
    rw [hl]
    exact ih (fun l' hl' => h l' (List.mem_cons_of_mem _ hl'))

theorem parseLine_ltOne {line : String} (h : ltOneUnitMarker line = true) :
    parseLine true line = Except.ok (some (1 - 1/2)) := by
  unfold ltOneUnitMarker at h
  rcases Bool.and_eq_true_iff.mp h with ⟨hcond, hmatch⟩
  cases hsplit : goSplit line "time<" with
  | nil => rw [hsplit] at hmatch; cases hmatch
  | cons a tail =>
    cases tail with
    | nil => rw [hsplit] at hmatch; cases hmatch
    | cons p1 t2 =>
      rw [hsplit] at hmatch
      dsimp only at hmatch
      cases hms : goSplit p1 "ms" with
      | nil => rw [hms] at hmatch; cases hmatch
      | cons m t3 =>
        rw [hms] at hmatch
        have hpf : parseFloat? m = some 1 := of_decide_eq_true hmatch
        have hlt : goContains line "time<" = true := by
          unfold goContains
          rw [hsplit]
          simp
        unfold parseLine
        rw [if_pos rfl, if_pos hcond, if_pos hlt, hsplit]
        dsimp only
        rw [hms]
        dsimp only
        rw [hpf]

/-- C4: parsing the probe text: any output whose lines the scanner all
passes over (no recognizable latency marker) parses to the `-1`
sentinel and yields a non-success outcome; and on the Windows dialect,
output reaching a line bearing the "less than one unit" marker
(`time<1ms`) yields the latency 1/2, strictly between 0 and 1. -/
theorem c4_parse_latency (isWindows : Bool) (lines pre post : List String)
    (marker : String) :
    ((∀ l ∈ lines, parseLine isWindows l = Except.ok none) →
      parseLatency isWindows lines = some (-1) ∧
      ∀ (seq : ℤ) (ts : Time) (r : PingResult),
        pingOnce isWindows seq ts (some lines) = some r → r.success = false) ∧
    ((∀ l ∈ pre, parseLine true l = Except.ok none) →
      ltOneUnitMarker marker = true →
      parseLatency true (pre ++ marker :: post) = some (1/2) ∧
      (0 : ℚ) < 1/2 ∧ (1/2 : ℚ) < 1) := by
  constructor
  · intro h
    have hpl : parseLatency isWindows lines = some (-1) := by
      have h2 := parseLatency_append isWindows lines [] h
      rwa [List.append_nil] at h2
    refine ⟨hpl, ?_⟩
    intro seq ts r hr
    simp only [pingOnce, hpl] at hr
    rw [if_neg (by norm_num : ¬(0 : ℚ) ≤ -1)] at hr
    simp only [Option.some.injEq] at hr
    rw [← hr]
  · intro hpre hm
    have h1 : parseLatency true (pre ++ marker :: post) =
        parseLatency true (marker :: post) :=
      parseLatency_append true pre _ hpre
    have h2 : parseLine true marker = Except.ok (some (1 - 1/2)) :=
      parseLine_ltOne hm
    refine ⟨?_, by norm_num, by norm_num⟩
    rw [h1]
    show (match parseLine true marker with
      | Except.error _ => none
      | Except.ok (some v) => some v
      | Except.ok none => parseLatency true post) = _
    rw [h2]
    norm_num

/-- Witness for C4: a marker-free output parses to the sentinel, and a
`time<1ms` line parses to one half. -/
theorem c4_witness :
    parseLatency false ["ok"] = some (-1) ∧
    parseLatency true ["time<1ms"] = some (1/2) := by
  have h := c4_parse_latency false ["ok"] [] [] "time<1ms"
  refine ⟨(h.1 ?_).1, (h.2 (by intro l hl; cases hl) ?_).1⟩
  · intro l hl
    simp only [List.mem_singleton] at hl
    rw [hl]
    with_unfolding_all rfl
  · with_unfolding_all rfl

theorem foldl_append_singleton (f : PingResult → String) (results : List PingResult) :
    ∀ init : List String,
      results.foldl (fun acc r => acc ++ [f r]) init = init ++ results.map f := by
  induction results with
  | nil => intro init; simp
  | cons r rs ih =>
    intro init
    rw [List.foldl_cons, ih, List.map_cons, List.append_assoc, List.singleton_append]

/-- C6: for every target and outcome sequence, the persisted log is the
three header lines (target line, generation timestamp line, separator)
followed by exactly one line per outcome in original order, formatted
`[HH:MM:SS] Ping <seq>: <value> ms` for a success and
`[HH:MM:SS] Ping <seq>: FAILED` for a failure, and nothing else; the
written content does not depend on the file's prior content. -/
theorem c6_log_format (target gen : String) (results : List PingResult)
    (prior prior2 : Option String) :
    logResults true prior target gen results =
      some (String.join (logWrites target gen results)) ∧
    logResults true prior target gen results =
      logResults true prior2 target gen results ∧
    logWrites target gen results =
      ("Ping Log - Target: " ++ target ++ "\n") ::
      ("Generated: " ++ gen ++ "\n") ::
      "=====================================\n" ::
      results.map (fun r =>
        if r.success then
          "[" ++ fmtHMS r.timestamp ++ "] Ping " ++ toString r.sequence ++ ": " ++
            fmtFixed 2 r.latency ++ " ms\n"
        else
          "[" ++ fmtHMS r.timestamp ++ "] Ping " ++ toString r.sequence ++
            ": FAILED\n") := by
  refine ⟨rfl, rfl, ?_⟩
  unfold logWrites
  rw [foldl_append_singleton (fun r => logLine r ++ "\n") results]
  have hmap : results.map (fun r => logLine r ++ "\n") =
      results.map (fun r =>
        if r.success then
          "[" ++ fmtHMS r.timestamp ++ "] Ping " ++ toString r.sequence ++ ": " ++
            fmtFixed 2 r.latency ++ " ms\n"
        else
          "[" ++ fmtHMS r.timestamp ++ "] Ping " ++ toString r.sequence ++
            ": FAILED\n") := by
    apply List.map_congr_left
    intro r _
    unfold logLine
    have e1 : (" ms" ++ "\n" : String) = " ms\n" := by with_unfolding_all rfl
    have e2 : (": FAILED" ++ "\n" : String) = ": FAILED\n" := by with_unfolding_all rfl
    by_cases hs : r.success
    · rw [if_pos hs, if_pos hs, String.append_assoc, e1]
    · rw [if_neg hs, if_neg hs, String.append_assoc, e2]
  rw [hmap]
  rfl

/-- Counterexample to C7 as stated: the sampling loop does perform
console I/O while collecting outcomes — a single-tick run with a
successful probe leaves a non-empty effect trace holding the per-probe
progress line. -/
theorem c7_counterexample :
    (pingLoop demoProbe 100 1 [Event.tick] 0).effects =
      [Effect.console "Ping 1: 7.00 ms"] ∧
    (pingLoop demoProbe 100 1 [Event.tick] 0).effects ≠ [] := by
  with_unfolding_all decide

theorem pingLoop_tick_effects (probe : ℤ → PingResult) (threshold : ℚ)
    (count : ℤ) (rest : List Event) (i : ℤ) :
    (pingLoop probe threshold count (Event.tick :: rest) i).effects =
      Effect.console
        (if (probe (i + 1)).success then pingSuccessLine (probe (i + 1)) threshold
         else pingFailLine (probe (i + 1))) ::
        (if 0 < count ∧ count ≤ i + 1 then ([] : List Effect)
         else (pingLoop probe threshold count rest (i + 1)).effects) := by
  simp only [pingLoop]
  by_cases hs : (probe (i + 1)).success <;>
    simp only [hs, if_true, if_false, Bool.false_eq_true] <;>
    rw [apply_ite LoopOut.effects]

/-- C7 (amended): the sampling loop performs no file I/O — every entry
of its effect trace is console output (the per-probe progress line or
the interrupt notice); beyond that it only accumulates the outcome and
latency sequences.  (The original claim, that it performs no console
I/O either, is false: see the counterexample.) -/
theorem c7_loop_no_file_io (probe : ℤ → PingResult) (threshold : ℚ)
    (count : ℤ) (events : List Event) (i : ℤ) :
    (pingLoop probe threshold count events i).effects.all Effect.isConsole = true := by
  induction events generalizing i with
  | nil => rfl
  | cons e rest ih =>
    cases e with
    | sig => rfl
    | tick =>
      rw [pingLoop_tick_effects, List.all_cons]
      have h1 : Effect.isConsole (Effect.console
          (if (probe (i + 1)).success then pingSuccessLine (probe (i + 1)) threshold
           else pingFailLine (probe (i + 1)))) = true := rfl
      rw [h1, Bool.true_and]
      by_cases hc : 0 < count ∧ count ≤ i + 1
      · rw [if_pos hc]; rfl
      · rw [if_neg hc]; exact ih (i + 1)

theorem dropLast_append_singleton {α : Type} (xs : List α) (a : α) :
    (xs ++ [a]).dropLast = xs := by
  simp

/-- C8: when writing the log file fails, the error is reported as a
console line `Error logging results: <error>`, the run is not aborted:
the statistics and graph output already produced are exactly those of
the successful-write run, the file is left unchanged, and the process
still exits with code 0. -/
theorem c8_persistence_failure (plot : List ℚ → ℕ → ℕ → String → String)
    (target logFile gen errMsg : String) (results : List PingResult)
    (latencies : List ℚ) (prior : Option String) :
    (finishRun plot target logFile gen errMsg results latencies false prior).exitCode
      = 0 ∧
    (finishRun plot target logFile gen errMsg results latencies false prior).file
      = prior ∧
    (finishRun plot target logFile gen errMsg results latencies false prior).effects =
      (statsLines (displayStats results latencies)).map Effect.console ++
      (graphSection plot target latencies).map Effect.console ++
      [Effect.console ("Error logging results: " ++ errMsg)] ∧
    (finishRun plot target logFile gen errMsg results latencies false prior).effects.dropLast
      =
      (finishRun plot target logFile gen errMsg results latencies true prior).effects.dropLast.dropLast := by
  refine ⟨rfl, rfl, rfl, ?_⟩
  show ((statsLines (displayStats results latencies)).map Effect.console ++
      (graphSection plot target latencies).map Effect.console ++
      [Effect.console ("Error logging results: " ++ errMsg)]).dropLast =
    ((statsLines (displayStats results latencies)).map Effect.console ++
      (graphSection plot target latencies).map Effect.console ++
      [Effect.fileWrite logFile (String.join (logWrites target gen results)),
       Effect.console ("Results logged to " ++ logFile)]).dropLast.dropLast
  rw [dropLast_append_singleton]
  rw [show [Effect.fileWrite logFile (String.join (logWrites target gen results)),
      Effect.console ("Results logged to " ++ logFile)] =
      [Effect.fileWrite logFile (String.join (logWrites target gen results))] ++
      [Effect.console ("Results logged to " ++ logFile)] from rfl]
  rw [← List.append_assoc, dropLast_append_singleton, dropLast_append_singleton]

/-- C9: every `PingResult` created by `pingOnce` satisfies the data
model invariant: a successful outcome carries a non-negative latency,
a failed outcome carries the zero (absent) latency, and a negative
parsed latency is never marked successful. -/
theorem c9_outcome_invariant (isWindows : Bool) (seq : ℤ) (ts : Time)
    (cmdOutput : Option (List String)) (r : PingResult)
    (h : pingOnce isWindows seq ts cmdOutput = some r) :
    (r.success = true → 0 ≤ r.latency) ∧
    (r.success = false → r.latency = 0) ∧
    (∀ (lines : List String) (v : ℚ), cmdOutput = some lines →
      parseLatency isWindows lines = some v → v < 0 → r.success = false) := by
  cases cmdOutput with
  | none =>
    simp only [pingOnce, Option.some.injEq] at h
    rw [← h]
    refine ⟨fun hs => ?_, fun _ => rfl, fun lines v hl => ?_⟩
    · exact Bool.noConfusion hs
    · exact Option.noConfusion hl
  | some lines =>
    simp only [pingOnce] at h
    cases hp : parseLatency isWindows lines with
    | none => rw [hp] at h; cases h
    | some latency =>
      rw [hp] at h
      dsimp only at h
      by_cases hlat : 0 ≤ latency
      · rw [if_pos hlat] at h
        simp only [Option.some.injEq] at h
        rw [← h]
        refine ⟨fun _ => hlat, fun hs => ?_, fun lines' v hl hv hneg => ?_⟩
        · exact Bool.noConfusion hs
        · exfalso
          cases hl
          rw [hp] at hv
          cases hv
          exact absurd hlat (not_le.mpr hneg)
      · rw [if_neg hlat] at h
        simp only [Option.some.injEq] at h
        rw [← h]
        refine ⟨fun hs => ?_, fun _ => rfl, fun _ _ _ _ _ => rfl⟩
        exact Bool.noConfusion hs

/-- Witness for C9: a parsed Unix line `time=10.2 ms` yields the
successful outcome with latency 51/5, which is non-negative. -/
theorem c9_witness :
    (0 : ℚ) ≤ (PingResult.mk 1 (51/5) true ⟨0, 0, 0⟩).latency :=
  (c9_outcome_invariant false 1 ⟨0, 0, 0⟩ (some ["a time=10.2 ms"])
    (PingResult.mk 1 (51/5) true ⟨0, 0, 0⟩)
    (by with_unfolding_all decide)).1 rfl

end PingAnalyzer
